import Mathlib

/-!
Verification of the socket-handoff subsystem of a reverse-proxy program
(`src/socket.rs`): the file-descriptor registry (`FileDescriptorsMap`),
the wire codec (`serialize_vec_string` / `deserialize_vec_string`), and
the retry loops of the sender (`send_fds_to`) and the receiver
(`get_fds_from` / `accept_with_retry`).

The registry `FileDescriptorsMap { map: HashMap<String, RawFd> }` is
modelled as an association list `List (String × Int)` whose order stands
for the hash map's (arbitrary) iteration order; the hash-map invariant
that keys are unique is the predicate `NodupKeys`.  `RawFd` (an `i32`
never used arithmetically) is modelled as `Int`.
-/

namespace Mock


/-- Capacity constant `MAX_RETRY: usize = 5` from `socket.rs`. -/
def MAX_RETRY : Nat := 5

/-- Capacity constant `MAX_NONBLOCKING_POLLS: usize = 20` from `send_fds_to`. -/
def MAX_NONBLOCKING_POLLS : Nat := 20

/-- Model of `HashMap::insert`: replace the value in place when the key is
present, otherwise append the new binding. -/
def mapInsert : List (String × Int) → String → Int → List (String × Int)
  | [], k, v => [(k, v)]
  | (k', v') :: rest, k, v =>
    if k' = k then (k, v) :: rest else (k', v') :: mapInsert rest k v

/-- Model of `HashMap::get` (`FileDescriptorsMap::get`): first binding of the
key, which is the only one under the hash-map key-uniqueness invariant. -/
def mapGet : List (String × Int) → String → Option Int
  | [], _ => none
  | (k', v) :: rest, k => if k' = k then some v else mapGet rest k

/-- The hash-map invariant: every key occurs at most once. -/
def NodupKeys (m : List (String × Int)) : Prop := (m.map Prod.fst).Nodup

/-- Model of `FileDescriptorsMap::serialize`: the two parallel vectors obtained by
iterating over the map, keys first, values second. -/
def serialize (m : List (String × Int)) : List String × List Int :=
  (m.map Prod.fst, m.map Prod.snd)

/-- The loop body of `FileDescriptorsMap::deserialize`:
`for i in 0..binds.len() { self.map.insert(binds[i].clone(), fds[i]); }`. -/
def deserializeLoop (m : List (String × Int)) (pairs : List (String × Int)) :
    List (String × Int) :=
  pairs.foldl (fun acc p => mapInsert acc p.1 p.2) m

/-- Model of `FileDescriptorsMap::deserialize`: `assert!(binds.len() == fds.len())`
(modelled as `none`, the fatal outcome), then the positional insert loop. -/
def deserialize (m : List (String × Int)) (binds : List String)
    (fds : List Int) : Option (List (String × Int)) :=
  if binds.length = fds.length then
    some (deserializeLoop m (binds.zip fds))
  else
    none

/-- Value of the last binding of a key in a list of pairs, i.e. the binding
that survives a left-to-right sequence of inserts. -/
def lastLookup (pairs : List (String × Int)) (k : String) : Option Int :=
  (pairs.reverse.find? (fun p => p.1 = k)).map Prod.snd

/-!
Wire codec (`serialize_vec_string` / `deserialize_vec_string`).  A Rust
`String` is modelled as a `List Nat` of Unicode scalar values
(`ValidChar`); the byte buffer is a `List Nat` of bytes.  `join(" ")` is
`sepJoin`, `str::as_bytes` is the UTF-8 encoder `utf8Bytes`,
`std::str::from_utf8` is the UTF-8 decoder `utf8Decode` (returning `none`
on invalid input, the case where the code's `unwrap` panics), and
`split_ascii_whitespace` is `splitAsciiWhitespace`.  The `Write` instance
for `&mut [u8]`, which copies as many bytes as fit and reports the number
copied, is `sliceWrite`.
-/

/-- Unicode scalar values: what a Rust `char` can hold. -/
def ValidChar (c : Nat) : Prop := (c < 0xD800 ∨ 0xE000 ≤ c) ∧ c < 0x110000

instance (c : Nat) : Decidable (ValidChar c) :=
  inferInstanceAs (Decidable ((c < 0xD800 ∨ 0xE000 ≤ c) ∧ c < 0x110000))

/-- The five bytes recognised by `u8::is_ascii_whitespace`, used by
`str::split_ascii_whitespace`: space, tab, newline, form feed, carriage
return. -/
def isAsciiWs (c : Nat) : Bool :=
  c = 0x20 || c = 0x09 || c = 0x0A || c = 0x0C || c = 0x0D

/-- UTF-8 encoding of one Unicode scalar value. -/
def utf8EncodeChar (c : Nat) : List Nat :=
  if c < 0x80 then [c]
  else if c < 0x800 then [0xC0 + c / 0x40, 0x80 + c % 0x40]
  else if c < 0x10000 then
    [0xE0 + c / 0x1000, 0x80 + c / 0x40 % 0x40, 0x80 + c % 0x40]
  else
    [0xF0 + c / 0x40000, 0x80 + c / 0x1000 % 0x40, 0x80 + c / 0x40 % 0x40,
      0x80 + c % 0x40]

/-- UTF-8 encoding of a string (`str::as_bytes` of the model string). -/
def utf8Bytes : List Nat → List Nat
  | [] => []
  | c :: rest => utf8EncodeChar c ++ utf8Bytes rest

/-- Whether a byte is a UTF-8 continuation byte (`0x80 ..= 0xBF`). -/
def isCont (b : Nat) : Bool := 0x80 ≤ b && b < 0xC0

/-- Decode one UTF-8 sequence from the front of the byte list, returning
the scalar value and the remaining bytes; `none` exactly where Rust
reports `Utf8Error` — stray continuation bytes, truncated sequences,
overlong encodings, surrogate code points, and values above `0x10FFFF`. -/
def utf8DecodeChar : List Nat → Option (Nat × List Nat)
  | [] => none
  | b0 :: rest =>
    if b0 < 0x80 then some (b0, rest)
    else if b0 < 0xC0 then none
    else if b0 < 0xE0 then
      match rest.head? with
      | some b1 =>
        if isCont b1 then
          if 0x80 <= (b0 - 0xC0) * 0x40 + (b1 - 0x80) then
            some ((b0 - 0xC0) * 0x40 + (b1 - 0x80), rest.tail)
          else none
        else none
      | none => none
    else if b0 < 0xF0 then
      match rest.head?, rest.tail.head? with
      | some b1, some b2 =>
        if isCont b1 && isCont b2 then
          if 0x800 <= (b0 - 0xE0) * 0x1000 + (b1 - 0x80) * 0x40 + (b2 - 0x80) ∧
              ((b0 - 0xE0) * 0x1000 + (b1 - 0x80) * 0x40 + (b2 - 0x80) < 0xD800 ∨
                0xE000 <= (b0 - 0xE0) * 0x1000 + (b1 - 0x80) * 0x40 + (b2 - 0x80)) then
            some ((b0 - 0xE0) * 0x1000 + (b1 - 0x80) * 0x40 + (b2 - 0x80),
              rest.tail.tail)
          else none
        else none
      | _, _ => none
    else if b0 < 0xF8 then
      match rest.head?, rest.tail.head?, rest.tail.tail.head? with
      | some b1, some b2, some b3 =>
        if isCont b1 && isCont b2 && isCont b3 then
          if 0x10000 <= (b0 - 0xF0) * 0x40000 + (b1 - 0x80) * 0x1000 +
              (b2 - 0x80) * 0x40 + (b3 - 0x80) ∧
              (b0 - 0xF0) * 0x40000 + (b1 - 0x80) * 0x1000 +
              (b2 - 0x80) * 0x40 + (b3 - 0x80) < 0x110000 then
            some ((b0 - 0xF0) * 0x40000 + (b1 - 0x80) * 0x1000 +
              (b2 - 0x80) * 0x40 + (b3 - 0x80), rest.tail.tail.tail)
          else none
        else none
      | _, _, _ => none
    else none

/-- Iterate `utf8DecodeChar` over the whole byte list.  The fuel argument
only bounds the number of characters decoded; since every character
consumes at least one byte, fuel equal to the byte count never runs out
(`utf8DecodeAux_fuel_irrelevant` below), so this is the total decoder. -/
def utf8DecodeAux : Nat → List Nat → Option (List Nat)
  | _, [] => some []
  | 0, _ :: _ => none
  | fuel + 1, b0 :: rest =>
    match utf8DecodeChar (b0 :: rest) with
    | none => none
    | some (c, r) => (utf8DecodeAux fuel r).map (c :: ·)

/-- UTF-8 decoding of a byte list (`std::str::from_utf8` followed by
reading off the scalar values): `none` models the `Err(Utf8Error)` case. -/
def utf8Decode (l : List Nat) : Option (List Nat) := utf8DecodeAux l.length l

/-- Model of `Vec::join(" ")`: the names separated by single spaces. -/
def sepJoin : List (List Nat) → List Nat
  | [] => []
  | [w] => w
  | w :: rest => w ++ 0x20 :: sepJoin rest

/-- Helper of `splitAsciiWhitespace`: `acc` is the current word, reversed. -/
def splitAWAux : List Nat → List Nat → List (List Nat)
  | [], acc => if acc.isEmpty then [] else [acc.reverse]
  | c :: rest, acc =>
    if isAsciiWs c then
      if acc.isEmpty then splitAWAux rest []
      else acc.reverse :: splitAWAux rest []
    else splitAWAux rest (c :: acc)

/-- Model of `str::split_ascii_whitespace` collected into a vector: the
maximal whitespace-free nonempty words, in order. -/
def splitAsciiWhitespace (s : List Nat) : List (List Nat) :=
  splitAWAux s []

/-- The `io::Write` impl for `&mut [u8]`: copy the longest prefix of `data`
that fits, leave the rest of the buffer untouched, and return the new
buffer contents together with the number of bytes written (this `write`
never fails, so the `unwrap` in the code never panics). -/
def sliceWrite (buffer data : List Nat) : List Nat × Nat :=
  let n := min data.length buffer.length
  (data.take n ++ buffer.drop n, n)

/-- Rust `serialize_vec_string`: join the names with single spaces and
write the UTF-8 bytes into the caller's buffer, returning the buffer after
the write and the byte count the function returns. -/
def serialize_vec_string (names : List (List Nat)) (buffer : List Nat) :
    List Nat × Nat :=
  sliceWrite buffer (utf8Bytes (sepJoin names))

/-- Rust `deserialize_vec_string`: UTF-8-decode the buffer (`none` models
the `unwrap` panic on invalid UTF-8) and split on ASCII whitespace. -/
def deserialize_vec_string (buffer : List Nat) : Option (List (List Nat)) :=
  (utf8Decode buffer).map splitAsciiWhitespace

/-!
Sender (`send_fds_to`) and receiver (`get_fds_from` / `accept_with_retry`).
The operating system is an environment: a function from the attempt index
to the result of the corresponding `connect()` / `sendmsg()` / `accept()`
call.  The loops are modelled exactly as written, including which counter
is incremented and where each bound is checked; the result records, besides
the returned value, the observable behaviour of a run — how many system
calls of each kind were made and how many sleeps of each interval occurred.
-/

/-- OS error codes distinguished by the retry logic (`nix::errno::Errno`);
every other errno is `other` with its raw code. -/
inductive Errno where
  | ENOENT
  | ECONNREFUSED
  | EACCES
  | EINPROGRESS
  | EAGAIN
  | other (code : Nat)
deriving DecidableEq

/-- The connect errnos classified by `send_fds_to` as "the server is not
ready yet" and retried with the 1-second interval (socket.rs line 110). -/
def connRetryable (e : Errno) : Prop :=
  e = .ENOENT ∨ e = .ECONNREFUSED ∨ e = .EACCES

/-- Outcome of the `connect()` retry loop of `send_fds_to`: the `conn_result`
value, the final value of the `nonblocking_polls` counter (which the send
phase continues from), and the counts of `connect()` calls, 1-second
`RETRY_INTERVAL` sleeps, and 500 ms `NONBLOCKING_POLL_INTERVAL` sleeps. -/
structure ConnResult where
  res : Except Errno Unit
  polls : Nat
  calls : Nat
  sleeps1s : Nat
  sleeps500ms : Nat

/-- The `connect()` retry loop of `send_fds_to` (`loop { match
socket::connect(..) ... }`): `ENOENT | ECONNREFUSED | EACCES` increments
`retried` and gives up once it exceeds `MAX_RETRY`, otherwise sleeps 1 s and
retries; `EINPROGRESS` increments `nonblocking_polls` and gives up once it
reaches `MAX_NONBLOCKING_POLLS`, otherwise sleeps 500 ms and retries; any
other error is terminal immediately. -/
def connectLoop (env : Nat → Option Errno) (attempt retried polls : Nat) :
    ConnResult :=
  match env attempt with
  | none => ⟨.ok (), polls, 1, 0, 0⟩
  | some e =>
    match e with
    | .ENOENT | .ECONNREFUSED | .EACCES =>
      if _h : retried + 1 > MAX_RETRY then ⟨.error e, polls, 1, 0, 0⟩
      else
        let r := connectLoop env (attempt + 1) (retried + 1) polls
        ⟨r.res, r.polls, r.calls + 1, r.sleeps1s + 1, r.sleeps500ms⟩
    | .EINPROGRESS =>
      if _h : polls + 1 ≥ MAX_NONBLOCKING_POLLS then
        ⟨.error e, polls + 1, 1, 0, 0⟩
      else
        let r := connectLoop env (attempt + 1) retried (polls + 1)
        ⟨r.res, r.polls, r.calls + 1, r.sleeps1s, r.sleeps500ms + 1⟩
    | _ => ⟨.error e, polls, 1, 0, 0⟩
termination_by (MAX_RETRY + 1 - retried) + (MAX_NONBLOCKING_POLLS - polls)
decreasing_by
  all_goals simp_wf
  all_goals omega

/-- Outcome of the `sendmsg()` retry loop of `send_fds_to`: the result (bytes
sent on success), the final poll counter, and the counts of `sendmsg()`
calls and 500 ms sleeps. -/
structure SendResult where
  res : Except Errno Nat
  polls : Nat
  calls : Nat
  sleeps500ms : Nat

/-- The `sendmsg()` retry loop of `send_fds_to`: `EAGAIN` increments the
same `nonblocking_polls` counter (passed in as `polls`, NOT reset between
the phases in the source) and gives up once it reaches
`MAX_NONBLOCKING_POLLS`, otherwise sleeps 500 ms and retries; any other
error is terminal immediately. -/
def sendLoop (env : Nat → Except Errno Nat) (attempt polls : Nat) :
    SendResult :=
  match env attempt with
  | .ok n => ⟨.ok n, polls, 1, 0⟩
  | .error e =>
    match e with
    | .EAGAIN =>
      if _h : polls + 1 ≥ MAX_NONBLOCKING_POLLS then
        ⟨.error e, polls + 1, 1, 0⟩
      else
        let r := sendLoop env (attempt + 1) (polls + 1)
        ⟨r.res, r.polls, r.calls + 1, r.sleeps500ms + 1⟩
    | _ => ⟨.error e, polls, 1, 0⟩
termination_by MAX_NONBLOCKING_POLLS - polls
decreasing_by
  simp_wf
  omega

/-- Result of a whole `send_fds_to` call: the returned value, whether
`close(send_fd)` ran before returning, and the per-phase counters. -/
structure SendFdsResult where
  res : Except Errno Nat
  sendFdClosed : Bool
  connectCalls : Nat
  connectSleeps1s : Nat
  connectPolls : Nat
  sendmsgCalls : Nat
  sendSleeps500ms : Nat

/-- Model of `send_fds_to`.  After `socket::socket(..)?` creates `send_fd`
(socket.rs lines 92-97), `UnixAddr::new(path)?` at line 98 constructs the
socket address; it is fallible (e.g. `ENAMETOOLONG` for an over-long path),
and its `?` returns that error immediately — WITHOUT closing `send_fd`,
since the only `close(send_fd)` sits at the single late exit point, line
186.  `aenv` is the result of the address construction (`none` = success).
On success the connect retry loop runs from counters zero; if it succeeds,
the sendmsg retry loop continues with the SAME `nonblocking_polls` counter
value the connect phase left behind; finally `close(send_fd)` runs on the
late exit point (`close` on a valid descriptor succeeds, so the trailing
`unwrap` never fires). -/
def send_fds_to (aenv : Option Errno) (cenv : Nat → Option Errno)
    (senv : Nat → Except Errno Nat) : SendFdsResult :=
  match aenv with
  | some e => ⟨.error e, false, 0, 0, 0, 0, 0⟩
  | none =>
    let conn := connectLoop cenv 0 0 0
    match conn.res with
    | .ok _ =>
      let snd := sendLoop senv 0 conn.polls
      ⟨snd.res, true, conn.calls, conn.sleeps1s, conn.polls, snd.calls,
        snd.sleeps500ms⟩
    | .error e =>
      ⟨.error e, true, conn.calls, conn.sleeps1s, conn.polls, 0, 0⟩

/-- Modelled from the spec's words for claim C3 (the behaviour the claim
asserts, for comparison with `send_fds_to`): identical except that the
sendmsg phase starts from a fresh poll budget — the counter is reset to 0
between the connect phase and the send phase. -/
def send_fds_to_fresh_budget (aenv : Option Errno)
    (cenv : Nat → Option Errno)
    (senv : Nat → Except Errno Nat) : SendFdsResult :=
  match aenv with
  | some e => ⟨.error e, false, 0, 0, 0, 0, 0⟩
  | none =>
    let conn := connectLoop cenv 0 0 0
    match conn.res with
    | .ok _ =>
      let snd := sendLoop senv 0 0
      ⟨snd.res, true, conn.calls, conn.sleeps1s, conn.polls, snd.calls,
        snd.sleeps500ms⟩
    | .error e =>
      ⟨.error e, true, conn.calls, conn.sleeps1s, conn.polls, 0, 0⟩

/-- Outcome of the receiver's `accept` retry loop: the accepted descriptor
or error, and the counts of `accept()` calls and 1-second sleeps. -/
structure AcceptResult where
  res : Except Errno Int
  calls : Nat
  sleeps1s : Nat

/-- Model of `accept_with_retry`: on error, FIRST check `retried > MAX_RETRY` (any
error is then terminal), THEN match the errno — `EAGAIN` increments
`retried`, sleeps 1 s and retries; any other error is terminal
immediately.  Because the ceiling check precedes the increment, a run
against a persistently unready peer sleeps `MAX_RETRY + 1` times. -/
def accept_with_retry (env : Nat → Except Errno Int)
    (attempt retried : Nat) : AcceptResult :=
  match env attempt with
  | .ok fd => ⟨.ok fd, 1, 0⟩
  | .error e =>
    if _h : retried > MAX_RETRY then ⟨.error e, 1, 0⟩
    else
      match e with
      | .EAGAIN =>
        let r := accept_with_retry env (attempt + 1) (retried + 1)
        ⟨r.res, r.calls + 1, r.sleeps1s + 1⟩
      | _ => ⟨.error e, 1, 0⟩
termination_by MAX_RETRY + 1 - retried
decreasing_by
  simp_wf
  omega

/-- Outcome of a modelled call: a normal return (`ok`/`err`) or a Rust
panic (an `unwrap` of an error), which aborts without running later code. -/
inductive Outcome (α : Type) where
  | ok (a : α)
  | err (e : Errno)
  | fatal
deriving DecidableEq

/-- Environment of one `get_fds_from` call: the result of each `accept()`
attempt and the result of the single `recvmsg()` (the received descriptor
list and byte count on success). -/
structure RecvEnv where
  accept : Nat → Except Errno Int
  recv : Except Errno (List Int × Nat)

/-- Filesystem and descriptor state observable after `get_fds_from`:
whether the well-known socket path still exists, and whether the listening
descriptor was closed. -/
structure FsState where
  pathExists : Bool
  listenClosed : Bool
deriving DecidableEq

/-- Effect of `close(listen_fd)`; closing a valid open descriptor succeeds,
so the source's `is_ok()` guard holds. -/
def closeListen (s : FsState) : FsState := { s with listenClosed := true }

/-- Effect of `unlink(path)` on the bound socket path. -/
def unlinkPath (s : FsState) : FsState := { s with pathExists := false }

/-- Model of `get_fds_from`: the setup (socket, stale unlink, bind, fchmodat,
listen — all `unwrap`ed, modelled as succeeding) leaves the path bound and
the listening descriptor open (`⟨true, false⟩`).  Then `accept_with_retry`:
on terminal failure the source runs
`if close(listen_fd).is_ok() { unlink(path).unwrap() }` and returns the
error; on success it calls `recvmsg` — whose `unwrap` PANICS on failure,
aborting before any cleanup — and on success extracts the descriptors,
runs the same cleanup, and returns them with the byte count. -/
def get_fds_from (env : RecvEnv) : Outcome (List Int × Nat) × FsState :=
  let st : FsState := ⟨true, false⟩
  match (accept_with_retry env.accept 0 0).res with
  | .error e => (.err e, unlinkPath (closeListen st))
  | .ok _fd =>
    match env.recv with
    | .error _ => (.fatal, st)
    | .ok (fds, bytes) => (.ok (fds, bytes), unlinkPath (closeListen st))

/-- Connect environment of the claim-C3 counterexample: nineteen
`EINPROGRESS` results, then success. -/
def cenvPolls (n : Nat) : Option Errno :=
  if n < 19 then some .EINPROGRESS else none

/-- Send environment of the claim-C3 counterexample: nineteen `EAGAIN`
results, then success with 7 bytes written. -/
def senvPolls (n : Nat) : Except Errno Nat :=
  if n < 19 then .error .EAGAIN else .ok 7

theorem mapGet_mapInsert (m : List (String × Int)) (a : String) (b : Int)
    (k : String) :
    mapGet (mapInsert m a b) k = if a = k then some b else mapGet m k := by
  induction m with
  | nil =>
    by_cases h : a = k <;> simp [mapInsert, mapGet, h]
  | cons p rest ih =>
    obtain ⟨k', v'⟩ := p
    by_cases h1 : k' = a
    · subst h1
      by_cases h2 : k' = k <;> simp [mapInsert, mapGet, h2]
    · by_cases h2 : k' = k
      · subst h2
        have : ¬ a = k' := fun h => h1 h.symm
        simp [mapInsert, mapGet, h1, this]
      · simp [mapInsert, mapGet, h1, h2, ih]

theorem lastLookup_cons (p : String × Int) (rest : List (String × Int))
    (k : String) :
    lastLookup (p :: rest) k =
      match lastLookup rest k with
      | some v => some v
      | none => if p.1 = k then some p.2 else none := by
  unfold lastLookup
  rw [List.reverse_cons, List.find?_append]
  cases h : List.find? (fun q => q.1 = k) rest.reverse with
  | none =>
    by_cases hk : p.1 = k <;> simp [h, hk, List.find?]
  | some v => simp [h]

theorem mapGet_deserializeLoop (pairs : List (String × Int))
    (m : List (String × Int)) (k : String) :
    mapGet (deserializeLoop m pairs) k =
      match lastLookup pairs k with
      | some v => some v
      | none => mapGet m k := by
  induction pairs generalizing m with
  | nil => simp [deserializeLoop, lastLookup]
  | cons p rest ih =>
    obtain ⟨a, b⟩ := p
    have step : deserializeLoop m ((a, b) :: rest)
        = deserializeLoop (mapInsert m a b) rest := rfl
    rw [step, ih, lastLookup_cons]
    cases h : lastLookup rest k with
    | some v => rfl
    | none => by_cases hak : a = k <;> simp [mapGet_mapInsert, hak]

theorem mapGet_eq_none_of_not_mem (m : List (String × Int)) (k : String)
    (h : k ∉ m.map Prod.fst) : mapGet m k = none := by
  induction m with
  | nil => rfl
  | cons p rest ih =>
    simp only [List.map_cons, List.mem_cons] at h
    push_neg at h
    obtain ⟨p1, p2⟩ := p
    have h1 : ¬ p1 = k := fun hk => h.1 hk.symm
    simp [mapGet, h1, ih h.2]

theorem lastLookup_eq_none (pairs : List (String × Int)) (k : String)
    (h : k ∉ pairs.map Prod.fst) : lastLookup pairs k = none := by
  unfold lastLookup
  rw [List.find?_eq_none.mpr, Option.map_none']
  intro p hp
  simp only [decide_eq_true_eq]
  intro hk
  exact h (List.mem_map.mpr ⟨p, List.mem_reverse.mp hp, hk⟩)

theorem lastLookup_eq_mapGet_of_nodup (m : List (String × Int))
    (hm : NodupKeys m) (k : String) : lastLookup m k = mapGet m k := by
  induction m with
  | nil => simp [lastLookup, mapGet]
  | cons p rest ih =>
    obtain ⟨a, b⟩ := p
    have hrest : NodupKeys rest := (List.nodup_cons.mp hm).2
    have hnot : a ∉ rest.map Prod.fst := (List.nodup_cons.mp hm).1
    rw [lastLookup_cons, ih hrest]
    by_cases hk : a = k
    · subst hk
      rw [mapGet_eq_none_of_not_mem rest a hnot]
      simp [mapGet]
    · cases h : mapGet rest k with
      | some v => simp [mapGet, hk, h]
      | none => simp [mapGet, hk, h]

theorem lastLookup_getElem (pairs : List (String × Int)) (i : Nat)
    (hi : i < pairs.length)
    (hlast : ∀ j, (hj : j < pairs.length) → i < j → pairs[j].1 ≠ pairs[i].1) :
    lastLookup pairs pairs[i].1 = some pairs[i].2 := by
  induction pairs generalizing i with
  | nil => exact absurd hi (by simp)
  | cons p rest ih =>
    cases i with
    | zero =>
      have hnot : p.1 ∉ rest.map Prod.fst := by
        intro hmem
        obtain ⟨q, hq, hqk⟩ := List.mem_map.mp hmem
        obtain ⟨j, hj, rfl⟩ := List.getElem_of_mem hq
        exact hlast (j + 1) (by simpa using Nat.succ_lt_succ hj)
          (Nat.succ_pos j) (by simpa using hqk)
      rw [List.getElem_cons_zero, lastLookup_cons,
        lastLookup_eq_none rest _ hnot]
      simp
    | succ n =>
      have hn : n < rest.length := by simpa using Nat.lt_of_succ_lt_succ hi
      have hrec := ih n hn (fun j hj hij => by
        have := hlast (j + 1) (by simpa using Nat.succ_lt_succ hj)
          (Nat.succ_lt_succ hij)
        simpa using this)
      rw [List.getElem_cons_succ, lastLookup_cons, hrec]

/-- Claim C8: `FileDescriptorsMap::deserialize` asserts equal input lengths
(unequal lengths are the fatal outcome `none`, never a recoverable return),
and under the equal-length precondition it returns normally, having inserted
the i-th bind name mapped to the i-th descriptor for every index i — so every
index whose name has no later duplicate is found in the resulting map bound
to its positional descriptor. -/
theorem deserialize_length_assert_and_positional (m : List (String × Int))
    (binds : List String) (fds : List Int) :
    (binds.length ≠ fds.length → deserialize m binds fds = none) ∧
    (∀ (hlen : binds.length = fds.length), ∃ m',
      deserialize m binds fds = some m' ∧
      ∀ i, (hi : i < binds.length) →
        (∀ j, (hj : j < binds.length) → i < j → binds[j] ≠ binds[i]) →
        mapGet m' binds[i] = some (fds.get ⟨i, hlen ▸ hi⟩)) := by
  constructor
  · intro hne
    simp [deserialize, hne]
  · intro hlen
    refine ⟨deserializeLoop m (binds.zip fds), by simp [deserialize, hlen], ?_⟩
    intro i hi hnodup
    have hip : i < (binds.zip fds).length := by
      simp [List.length_zip]
      omega
    have hkey : (binds.zip fds)[i].1 = binds[i] := by
      simp [List.getElem_zip]
    have hval : (binds.zip fds)[i].2 = fds.get ⟨i, hlen ▸ hi⟩ := by
      simp [List.getElem_zip, List.get_eq_getElem]
    have hlook := lastLookup_getElem (binds.zip fds) i hip (fun j hj hij => by
      have hjb : j < binds.length := by
        simp [List.length_zip] at hj
        omega
      have h1 : (binds.zip fds)[j].1 = binds[j] := by simp [List.getElem_zip]
      rw [h1, hkey]
      exact hnodup j hjb hij)
    rw [mapGet_deserializeLoop, ← hkey, hlook, hval]

/-- Closed instance of the claim-C8 theorem: at `binds = ["a", "b"]`,
`fds = [1, 2]`, with the unequal-length half checked at `binds = ["a"]`,
`fds = []`. -/
theorem deserialize_length_assert_and_positional_witness :
    deserialize [] ["a"] ([] : List Int) = none ∧
    (∃ m', deserialize [] ["a", "b"] [1, 2] = some m' ∧
      ∀ i, (hi : i < (["a", "b"] : List String).length) →
        (∀ j, (hj : j < (["a", "b"] : List String).length) → i < j →
          (["a", "b"] : List String)[j] ≠ (["a", "b"] : List String)[i]) →
        mapGet m' (["a", "b"] : List String)[i] =
          some (([1, 2] : List Int).get ⟨i, by simpa using hi⟩)) :=
  ⟨(deserialize_length_assert_and_positional [] ["a"] []).1 (by decide),
   (deserialize_length_assert_and_positional [] ["a", "b"] [1, 2]).2 rfl⟩

/-- Claim C10: `deserialize` merges rather than replaces — every pre-existing
entry whose key does not occur among the input names is unchanged by the
call (the map is never cleared). -/
theorem deserialize_frame (m : List (String × Int)) (binds : List String)
    (fds : List Int) (k : String) (hlen : binds.length = fds.length)
    (hk : k ∉ binds) :
    ∃ m', deserialize m binds fds = some m' ∧ mapGet m' k = mapGet m k := by
  refine ⟨deserializeLoop m (binds.zip fds), by simp [deserialize, hlen], ?_⟩
  have hmap : (binds.zip fds).map Prod.fst = binds :=
    List.map_fst_zip binds fds (le_of_eq hlen)
  have hnone : lastLookup (binds.zip fds) k = none :=
    lastLookup_eq_none _ k (by rw [hmap]; exact hk)
  rw [mapGet_deserializeLoop, hnone]

/-- Closed instance of the claim-C10 theorem: the pre-existing entry
`("old", 9)` survives a deserialize of `["a"] / [1]`. -/
theorem deserialize_frame_witness :
    ∃ m', deserialize [("old", 9)] ["a"] [1] = some m' ∧
      mapGet m' "old" = mapGet [("old", 9)] "old" :=
  deserialize_frame [("old", 9)] ["a"] [1] "old" rfl (by decide)

theorem zip_serialize_self (m : List (String × Int)) :
    (m.map Prod.fst).zip (m.map Prod.snd) = m := by
  induction m with
  | nil => rfl
  | cons p rest ih => simp [List.zip_cons_cons, ih]

/-- Claim C1: registry wire round-trip — for a registry with at most 32
entries (and unique keys, the hash-map invariant), deserializing the two
parallel vectors produced by `serialize` into an empty registry yields a
registry with the same mapping: `mapGet` agrees on every key. -/
theorem registry_wire_roundtrip (m : List (String × Int)) (hm : NodupKeys m)
    (hcap : m.length ≤ 32) :
    ∃ m', deserialize [] (serialize m).1 (serialize m).2 = some m' ∧
      ∀ k, mapGet m' k = mapGet m k := by
  refine ⟨deserializeLoop [] ((m.map Prod.fst).zip (m.map Prod.snd)),
    by simp [deserialize, serialize], ?_⟩
  intro k
  rw [mapGet_deserializeLoop, zip_serialize_self,
    lastLookup_eq_mapGet_of_nodup m hm k]
  cases h : mapGet m k with
  | some v => rfl
  | none => rfl

/-- Closed instance of the claim-C1 theorem at the two-entry registry
`[("127.0.0.1:8080", 5), ("127.0.0.1:9090", 7)]`. -/
theorem registry_wire_roundtrip_witness :
    ∃ m', deserialize []
        (serialize [("127.0.0.1:8080", 5), ("127.0.0.1:9090", 7)]).1
        (serialize [("127.0.0.1:8080", 5), ("127.0.0.1:9090", 7)]).2 =
          some m' ∧
      ∀ k, mapGet m' k =
        mapGet [("127.0.0.1:8080", 5), ("127.0.0.1:9090", 7)] k :=
  registry_wire_roundtrip [("127.0.0.1:8080", 5), ("127.0.0.1:9090", 7)]
    (by unfold NodupKeys; decide) (by decide)

theorem utf8DecodeChar_consumes (l : List Nat) (c : Nat) (r : List Nat)
    (h : utf8DecodeChar l = some (c, r)) : r.length < l.length := by
  cases l with
  | nil => simp [utf8DecodeChar] at h
  | cons b0 rest =>
    rw [utf8DecodeChar] at h
    repeat' split at h
    all_goals first
      | (simp only [Option.some.injEq, Prod.mk.injEq] at h
         obtain ⟨h1, rfl⟩ := h
         simp only [List.length_cons, List.length_tail]
         omega)
      | simp at h

theorem utf8DecodeAux_fuel_irrelevant : ∀ (fuel : Nat) (l : List Nat),
    l.length ≤ fuel → utf8DecodeAux fuel l = utf8Decode l := by
  intro fuel
  induction fuel using Nat.strong_induction_on with
  | _ fuel ih =>
    intro l hl
    cases l with
    | nil => cases fuel <;> rfl
    | cons b0 rest =>
      cases fuel with
      | zero => simp at hl
      | succ n =>
        rw [utf8Decode]
        simp only [List.length_cons]
        rw [utf8DecodeAux, utf8DecodeAux]
        cases hdc : utf8DecodeChar (b0 :: rest) with
        | none => rfl
        | some p =>
          obtain ⟨c, r⟩ := p
          have hr := utf8DecodeChar_consumes _ _ _ hdc
          simp only [List.length_cons] at hr hl
          show Option.map (c :: ·) (utf8DecodeAux n r) =
            Option.map (c :: ·) (utf8DecodeAux rest.length r)
          rw [ih n (by omega) r (by omega),
            ih rest.length (by omega) r (by omega)]

theorem utf8EncodeChar_length_pos (c : Nat) :
    0 < (utf8EncodeChar c).length := by
  simp only [utf8EncodeChar]
  repeat' split
  all_goals simp

theorem utf8DecodeChar_encodeChar (c : Nat) (hc : ValidChar c)
    (tail : List Nat) :
    utf8DecodeChar (utf8EncodeChar c ++ tail) = some (c, tail) := by
  obtain ⟨hsur, hmax⟩ := hc
  by_cases h1 : c < 0x80
  · have e : utf8EncodeChar c = [c] := by
      simp only [utf8EncodeChar]
      rw [if_pos h1]
    rw [e, List.cons_append, List.nil_append, utf8DecodeChar, if_pos h1]
  · by_cases h2 : c < 0x800
    · have e : utf8EncodeChar c = [0xC0 + c / 0x40, 0x80 + c % 0x40] := by
        simp only [utf8EncodeChar]
        rw [if_neg h1, if_pos h2]
      have g3 : isCont (0x80 + c % 0x40) = true := by
        simp only [isCont, Bool.and_eq_true, decide_eq_true_eq]
        omega
      have g4 : (0xC0 + c / 0x40 - 0xC0) * 0x40 + (0x80 + c % 0x40 - 0x80)
          = c := by omega
      rw [e, List.cons_append, List.cons_append, List.nil_append,
        utf8DecodeChar, if_neg (by omega), if_neg (by omega),
        if_pos (by omega : (0xC0 + c / 0x40 : Nat) < 0xE0)]
      simp only [List.head?_cons, List.tail_cons, g3, if_true, g4]
      rw [if_pos (by omega)]
    · by_cases h3 : c < 0x10000
      · have e : utf8EncodeChar c =
            [0xE0 + c / 0x1000, 0x80 + c / 0x40 % 0x40, 0x80 + c % 0x40] := by
          simp only [utf8EncodeChar]
          rw [if_neg h1, if_neg h2, if_pos h3]
        have g4 : isCont (0x80 + c / 0x40 % 0x40) = true := by
          simp only [isCont, Bool.and_eq_true, decide_eq_true_eq]
          omega
        have g5 : isCont (0x80 + c % 0x40) = true := by
          simp only [isCont, Bool.and_eq_true, decide_eq_true_eq]
          omega
        have g6 : (0xE0 + c / 0x1000 - 0xE0) * 0x1000 +
            (0x80 + c / 0x40 % 0x40 - 0x80) * 0x40 + (0x80 + c % 0x40 - 0x80)
            = c := by omega
        rw [e, List.cons_append, List.cons_append, List.cons_append,
          List.nil_append, utf8DecodeChar, if_neg (by omega),
          if_neg (by omega), if_neg (by omega),
          if_pos (by omega : (0xE0 + c / 0x1000 : Nat) < 0xF0)]
        simp only [List.head?_cons, List.tail_cons, g4, g5, Bool.and_self,
          if_true, g6]
        rw [if_pos (by omega)]
      · have e : utf8EncodeChar c =
            [0xF0 + c / 0x40000, 0x80 + c / 0x1000 % 0x40,
              0x80 + c / 0x40 % 0x40, 0x80 + c % 0x40] := by
          simp only [utf8EncodeChar]
          rw [if_neg h1, if_neg h2, if_neg h3]
        have g5 : isCont (0x80 + c / 0x1000 % 0x40) = true := by
          simp only [isCont, Bool.and_eq_true, decide_eq_true_eq]
          omega
        have g6 : isCont (0x80 + c / 0x40 % 0x40) = true := by
          simp only [isCont, Bool.and_eq_true, decide_eq_true_eq]
          omega
        have g7 : isCont (0x80 + c % 0x40) = true := by
          simp only [isCont, Bool.and_eq_true, decide_eq_true_eq]
          omega
        have g8 : (0xF0 + c / 0x40000 - 0xF0) * 0x40000 +
            (0x80 + c / 0x1000 % 0x40 - 0x80) * 0x1000 +
            (0x80 + c / 0x40 % 0x40 - 0x80) * 0x40 + (0x80 + c % 0x40 - 0x80)
            = c := by omega
        rw [e, List.cons_append, List.cons_append, List.cons_append,
          List.cons_append, List.nil_append, utf8DecodeChar,
          if_neg (by omega), if_neg (by omega), if_neg (by omega),
          if_neg (by omega),
          if_pos (by omega : (0xF0 + c / 0x40000 : Nat) < 0xF8)]
        simp only [List.head?_cons, List.tail_cons, g5, g6, g7,
          Bool.and_self, if_true, g8]
        rw [if_pos (by omega)]

theorem utf8Decode_char_step (c : Nat) (hc : ValidChar c)
    (rest : List Nat) :
    utf8Decode (utf8EncodeChar c ++ rest) =
      (utf8Decode rest).map (c :: ·) := by
  have hdc := utf8DecodeChar_encodeChar c hc rest
  rw [utf8Decode]
  cases hE : utf8EncodeChar c ++ rest with
  | nil =>
    rw [hE] at hdc
    simp [utf8DecodeChar] at hdc
  | cons b bs =>
    have hlen : rest.length ≤ bs.length := by
      have h1 := congrArg List.length hE
      simp only [List.length_append, List.length_cons] at h1
      have := utf8EncodeChar_length_pos c
      omega
    simp only [List.length_cons]
    rw [utf8DecodeAux, ← hE, hdc]
    show Option.map (c :: ·) (utf8DecodeAux bs.length rest) =
      Option.map (c :: ·) (utf8Decode rest)
    rw [utf8DecodeAux_fuel_irrelevant bs.length rest hlen]

theorem utf8Decode_utf8Bytes_append (s : List Nat)
    (hs : ∀ c ∈ s, ValidChar c) (tail : List Nat) :
    utf8Decode (utf8Bytes s ++ tail) = (utf8Decode tail).map (s ++ ·) := by
  induction s with
  | nil =>
    simp only [utf8Bytes, List.nil_append]
    cases utf8Decode tail <;> rfl
  | cons c rest ih =>
    rw [utf8Bytes, List.append_assoc,
      utf8Decode_char_step c (hs c (List.mem_cons_self c rest)) _,
      ih (fun d hd => hs d (List.mem_cons_of_mem c hd))]
    cases utf8Decode tail <;> simp

theorem utf8Decode_utf8Bytes (s : List Nat) (hs : ∀ c ∈ s, ValidChar c) :
    utf8Decode (utf8Bytes s) = some s := by
  have h := utf8Decode_utf8Bytes_append s hs []
  rw [List.append_nil] at h
  rw [h]
  show (some ([] : List Nat)).map (s ++ ·) = some s
  simp

theorem splitAWAux_word (w : List Nat)
    (hw : ∀ c ∈ w, isAsciiWs c = false) :
    ∀ (rest acc : List Nat),
      splitAWAux (w ++ rest) acc = splitAWAux rest (w.reverse ++ acc) := by
  induction w with
  | nil =>
    intro rest acc
    simp
  | cons c w' ih =>
    intro rest acc
    have hc : isAsciiWs c = false := hw c (List.mem_cons_self c w')
    rw [List.cons_append, splitAWAux]
    simp only [hc, Bool.false_eq_true, if_false]
    rw [ih (fun d hd => hw d (List.mem_cons_of_mem c hd)) rest (c :: acc)]
    simp [List.reverse_cons, List.append_assoc]

theorem splitAW_sepJoin (names : List (List Nat))
    (h : ∀ w ∈ names, w ≠ [] ∧ ∀ c ∈ w, isAsciiWs c = false) :
    splitAsciiWhitespace (sepJoin names) = names := by
  induction names with
  | nil => rfl
  | cons w rest ih =>
    obtain ⟨hw, hnws⟩ := h w (List.mem_cons_self w rest)
    cases rest with
    | nil =>
      show splitAWAux (sepJoin [w]) [] = [w]
      have hj : sepJoin [w] = w ++ [] := by
        simp [sepJoin]
      rw [hj, splitAWAux_word w hnws [] [], splitAWAux]
      have hne : (w.reverse ++ []).isEmpty = false := by
        cases hr : w.reverse with
        | nil => exact absurd (by simpa using hr) hw
        | cons a l => rfl
      simp [hne, hw]
    | cons w2 rest2 =>
      show splitAWAux (sepJoin (w :: w2 :: rest2)) [] = w :: w2 :: rest2
      have hj : sepJoin (w :: w2 :: rest2) = w ++ 0x20 :: sepJoin (w2 :: rest2) :=
        rfl
      rw [hj, splitAWAux_word w hnws _ [], splitAWAux]
      have hws : isAsciiWs 0x20 = true := by decide
      have hne : (w.reverse ++ []).isEmpty = false := by
        cases hr : w.reverse with
        | nil => exact absurd (by simpa using hr) hw
        | cons a l => rfl
      simp only [hws, if_true, hne, Bool.false_eq_true, if_false]
      have hih := ih (fun v hv => h v (List.mem_cons_of_mem w hv))
      rw [splitAsciiWhitespace] at hih
      rw [hih]
      simp

theorem mem_sepJoin (names : List (List Nat)) (c : Nat)
    (hc : c ∈ sepJoin names) : c = 0x20 ∨ ∃ w ∈ names, c ∈ w := by
  induction names with
  | nil => simp [sepJoin] at hc
  | cons w rest ih =>
    cases rest with
    | nil => exact Or.inr ⟨w, by simp, hc⟩
    | cons w2 rest2 =>
      have hj : sepJoin (w :: w2 :: rest2) = w ++ 0x20 :: sepJoin (w2 :: rest2) :=
        rfl
      rw [hj] at hc
      rcases List.mem_append.mp hc with h | h
      · exact Or.inr ⟨w, by simp, h⟩
      · rcases List.mem_cons.mp h with h | h
        · exact Or.inl h
        · rcases ih h with h | ⟨v, hv, hcv⟩
          · exact Or.inl h
          · exact Or.inr ⟨v, List.mem_cons_of_mem w hv, hcv⟩

theorem take_append_eq_left {α : Type} (l1 l2 : List α) (n : Nat)
    (h : l1.length = n) : (l1 ++ l2).take n = l1 := by
  subst h
  exact List.take_left l1 l2

theorem drop_append_eq_right {α : Type} (l1 l2 : List α) (n : Nat)
    (h : l1.length = n) : (l1 ++ l2).drop n = l2 := by
  subst h
  exact List.drop_left l1 l2

/-- Claim C9: capacity boundary of `serialize_vec_string`.  For every list
of names and every buffer, the write truncates safely: the returned count
is exactly `min (joined length) (buffer capacity)`, so it never exceeds the
buffer; the buffer keeps its length (nothing is written past it); the
written prefix is exactly the corresponding prefix of the joined bytes;
and the rest of the buffer is untouched.  (`Write for &mut [u8]` always
returns `Ok`, so the `unwrap` never panics; the model is total.) -/
theorem serialize_capacity (names : List (List Nat)) (buffer : List Nat) :
    (serialize_vec_string names buffer).2 ≤ buffer.length ∧
    (serialize_vec_string names buffer).2 =
      min (utf8Bytes (sepJoin names)).length buffer.length ∧
    (serialize_vec_string names buffer).1.length = buffer.length ∧
    (serialize_vec_string names buffer).1.take
        (serialize_vec_string names buffer).2 =
      (utf8Bytes (sepJoin names)).take
        (serialize_vec_string names buffer).2 ∧
    (serialize_vec_string names buffer).1.drop
        (serialize_vec_string names buffer).2 =
      buffer.drop (serialize_vec_string names buffer).2 := by
  have h2 : (serialize_vec_string names buffer).2 =
      min (utf8Bytes (sepJoin names)).length buffer.length := rfl
  have h1 : (serialize_vec_string names buffer).1 =
      (utf8Bytes (sepJoin names)).take
          ((serialize_vec_string names buffer).2) ++
        buffer.drop ((serialize_vec_string names buffer).2) := rfl
  refine ⟨?_, h2, ?_, ?_, ?_⟩
  · rw [h2]
    exact Nat.min_le_right _ _
  · rw [h1]
    simp only [List.length_append, List.length_take, List.length_drop, h2]
    omega
  · rw [h1]
    exact take_append_eq_left _ _ _
      (by simp only [List.length_take, h2]; omega)
  · rw [h1]
    exact drop_append_eq_right _ _ _
      (by simp only [List.length_take, h2]; omega)

/-- Claim C2 (amended): codec round-trip.  For every non-empty list of
distinct, individually non-empty names with no whitespace characters (the
amendment: names must be non-empty strings, see the counterexample), whose
space-joined UTF-8 length fits the 2048-byte buffer, decoding the written
prefix of the buffer produced by encoding returns the same list in the
same order; additionally, decoding empty input yields the empty list. -/
theorem codec_roundtrip (names : List (List Nat)) (hne : names ≠ [])
    (hdist : names.Pairwise (· ≠ ·))
    (hwords : ∀ w ∈ names, w ≠ [] ∧ ∀ c ∈ w, ValidChar c ∧ isAsciiWs c = false)
    (hcap : (utf8Bytes (sepJoin names)).length ≤ 2048) :
    deserialize_vec_string
      ((serialize_vec_string names (List.replicate 2048 0)).1.take
        (serialize_vec_string names (List.replicate 2048 0)).2) =
      some names ∧
    deserialize_vec_string [] = some [] := by
  constructor
  · have hvalid : ∀ c ∈ sepJoin names, ValidChar c := by
      intro c hc
      rcases mem_sepJoin names c hc with h | ⟨w, hw, hcw⟩
      · subst h
        exact ⟨Or.inl (by omega), by omega⟩
      · exact ((hwords w hw).2 c hcw).1
    have hk : (serialize_vec_string names (List.replicate 2048 0)).2 =
        (utf8Bytes (sepJoin names)).length := by
      show min (utf8Bytes (sepJoin names)).length
        (List.replicate 2048 (0 : Nat)).length = _
      simp only [List.length_replicate]
      omega
    have h1 : (serialize_vec_string names (List.replicate 2048 0)).1 =
        (utf8Bytes (sepJoin names)).take
            ((serialize_vec_string names (List.replicate 2048 0)).2) ++
          (List.replicate 2048 0).drop
            ((serialize_vec_string names (List.replicate 2048 0)).2) := rfl
    rw [h1, hk, List.take_length, take_append_eq_left _ _ _ rfl,
      deserialize_vec_string, utf8Decode_utf8Bytes _ hvalid, Option.map_some',
      splitAW_sepJoin names (fun w hw =>
        ⟨(hwords w hw).1, fun c hc => ((hwords w hw).2 c hc).2⟩)]
  · rfl

/-- Counterexample to claim C2 as stated: the one-element list containing
the empty name satisfies every hypothesis of the claim (non-empty list,
distinct entries, no whitespace, joined length 0 fits the buffer), yet the
encode-then-decode round trip returns the empty list, not the original
one-element list. -/
theorem codec_roundtrip_counterexample :
    ([[]] : List (List Nat)) ≠ [] ∧
    ([[]] : List (List Nat)).Pairwise (· ≠ ·) ∧
    (∀ w ∈ ([[]] : List (List Nat)), ∀ c ∈ w,
      ValidChar c ∧ isAsciiWs c = false) ∧
    (utf8Bytes (sepJoin [[]])).length ≤ 2048 ∧
    deserialize_vec_string
      ((serialize_vec_string [[]] (List.replicate 2048 0)).1.take
        (serialize_vec_string [[]] (List.replicate 2048 0)).2) = some [] ∧
    (some ([] : List (List Nat)) ≠ some ([[]] : List (List Nat))) := by
  refine ⟨by decide, by decide, by decide, by decide, ?_, by decide⟩
  have h2 : (serialize_vec_string [[]] (List.replicate 2048 0)).2 = 0 := by
    show min (utf8Bytes (sepJoin [[]])).length
      (List.replicate 2048 (0 : Nat)).length = 0
    have he : utf8Bytes (sepJoin [[]]) = [] := rfl
    rw [he, List.length_nil]
    exact Nat.zero_min _
  rw [h2, List.take_zero]
  rfl

/-- Closed instance of the claim-C2 theorem at `names = ["ab", "c"]`
(code points 97, 98 and 99). -/
theorem codec_roundtrip_witness :
    deserialize_vec_string
      ((serialize_vec_string [[97, 98], [99]] (List.replicate 2048 0)).1.take
        (serialize_vec_string [[97, 98], [99]] (List.replicate 2048 0)).2) =
      some [[97, 98], [99]] ∧
    deserialize_vec_string [] = some [] :=
  codec_roundtrip [[97, 98], [99]] (by decide) (by decide) (by decide)
    (by decide)

theorem connectLoop_enoent (env : Nat → Option Errno)
    (he : ∀ n, env n = some .ENOENT) :
    ∀ (k : Nat), 1 ≤ k → ∀ (attempt retried polls : Nat),
      retried + k = MAX_RETRY + 1 →
      connectLoop env attempt retried polls =
        ⟨.error .ENOENT, polls, k, k - 1, 0⟩ := by
  intro k
  induction k with
  | zero => omega
  | succ n ih =>
    intro _ attempt retried polls hsum
    rw [connectLoop, he attempt]
    simp only []
    by_cases hterm : retried + 1 > MAX_RETRY
    · have hn : n = 0 := by
        simp only [MAX_RETRY] at hterm hsum ⊢
        omega
      subst hn
      rw [dif_pos hterm]
    · rw [dif_neg hterm]
      have hn1 : 1 ≤ n := by
        simp only [MAX_RETRY] at hterm hsum ⊢
        omega
      rw [ih hn1 (attempt + 1) (retried + 1) polls (by omega)]
      simp [Nat.sub_add_cancel hn1]

theorem connectLoop_ok_polls (env : Nat → Option Errno) :
    ∀ (meas : Nat), ∀ (attempt retried polls : Nat),
      (MAX_RETRY + 1 - retried) + (MAX_NONBLOCKING_POLLS - polls) = meas →
      polls < MAX_NONBLOCKING_POLLS →
      (connectLoop env attempt retried polls).res = .ok () →
      (connectLoop env attempt retried polls).polls <
        MAX_NONBLOCKING_POLLS := by
  intro meas
  induction meas using Nat.strong_induction_on with
  | _ meas ih =>
    intro attempt retried polls hmeas hpolls hok
    rw [connectLoop] at hok ⊢
    cases henv : env attempt with
    | none =>
      simp only [] at hok ⊢
      exact hpolls
    | some e =>
      rw [henv] at hok
      cases e with
      | ENOENT | ECONNREFUSED | EACCES =>
        simp only [] at hok ⊢
        by_cases hterm : retried + 1 > MAX_RETRY
        · rw [dif_pos hterm] at hok
          exact absurd hok (by simp)
        · rw [dif_neg hterm] at hok ⊢
          exact ih ((MAX_RETRY + 1 - (retried + 1)) +
              (MAX_NONBLOCKING_POLLS - polls)) (by omega)
            (attempt + 1) (retried + 1) polls rfl hpolls hok
      | EINPROGRESS =>
        simp only [] at hok ⊢
        by_cases hterm : polls + 1 ≥ MAX_NONBLOCKING_POLLS
        · rw [dif_pos hterm] at hok
          exact absurd hok (by simp)
        · rw [dif_neg hterm] at hok ⊢
          exact ih ((MAX_RETRY + 1 - retried) +
              (MAX_NONBLOCKING_POLLS - (polls + 1))) (by omega)
            (attempt + 1) retried (polls + 1) rfl (by omega) hok
      | EAGAIN =>
        simp only [] at hok
        exact absurd hok (by simp)
      | other code =>
        simp only [] at hok
        exact absurd hok (by simp)

theorem sendLoop_eagain (senv : Nat → Except Errno Nat)
    (hs : ∀ n, senv n = .error .EAGAIN) :
    ∀ (k : Nat), 1 ≤ k → ∀ (attempt polls : Nat),
      polls + k = MAX_NONBLOCKING_POLLS →
      sendLoop senv attempt polls =
        ⟨.error .EAGAIN, MAX_NONBLOCKING_POLLS, k, k - 1⟩ := by
  intro k
  induction k with
  | zero => omega
  | succ n ih =>
    intro _ attempt polls hsum
    rw [sendLoop, hs attempt]
    simp only []
    by_cases hterm : polls + 1 ≥ MAX_NONBLOCKING_POLLS
    · have hn : n = 0 := by omega
      subst hn
      rw [dif_pos hterm]
      have hp : polls + 1 = MAX_NONBLOCKING_POLLS := by omega
      rw [hp]
    · rw [dif_neg hterm]
      have hn1 : 1 ≤ n := by omega
      rw [ih hn1 (attempt + 1) (polls + 1) (by omega)]
      simp [Nat.sub_add_cancel hn1]

theorem acceptLoop_eagain (env : Nat → Except Errno Int)
    (he : ∀ n, env n = .error .EAGAIN) :
    ∀ (k : Nat), 1 ≤ k → ∀ (attempt retried : Nat),
      retried + k = MAX_RETRY + 2 →
      accept_with_retry env attempt retried =
        ⟨.error .EAGAIN, k, k - 1⟩ := by
  intro k
  induction k with
  | zero => omega
  | succ n ih =>
    intro _ attempt retried hsum
    rw [accept_with_retry, he attempt]
    simp only []
    by_cases hterm : retried > MAX_RETRY
    · have hn : n = 0 := by
        simp only [MAX_RETRY] at hterm hsum ⊢
        omega
      subst hn
      rw [dif_pos hterm]
    · rw [dif_neg hterm]
      have hn1 : 1 ≤ n := by
        simp only [MAX_RETRY] at hterm hsum ⊢
        omega
      rw [ih hn1 (attempt + 1) (retried + 1) (by omega)]
      simp [Nat.sub_add_cancel hn1]

theorem connectLoop_retryable (env : Nat → Option Errno)
    (he : ∀ n, ∃ e, env n = some e ∧ connRetryable e) :
    ∀ (k : Nat), 1 ≤ k → ∀ (attempt retried polls : Nat),
      retried + k = MAX_RETRY + 1 →
      ∃ e, connRetryable e ∧
        connectLoop env attempt retried polls =
          ⟨.error e, polls, k, k - 1, 0⟩ := by
  intro k
  induction k with
  | zero => omega
  | succ n ih =>
    intro _ attempt retried polls hsum
    obtain ⟨e, henv, hr⟩ := he attempt
    rw [connectLoop, henv]
    rcases hr with rfl | rfl | rfl
    all_goals (
      simp only []
      by_cases hterm : retried + 1 > MAX_RETRY
      · have hn : n = 0 := by
          simp only [MAX_RETRY] at hterm hsum ⊢
          omega
        subst hn
        rw [dif_pos hterm]
        first
          | exact ⟨.ENOENT, Or.inl rfl, rfl⟩
          | exact ⟨.ECONNREFUSED, Or.inr (Or.inl rfl), rfl⟩
          | exact ⟨.EACCES, Or.inr (Or.inr rfl), rfl⟩
      · rw [dif_neg hterm]
        have hn1 : 1 ≤ n := by
          simp only [MAX_RETRY] at hterm hsum ⊢
          omega
        obtain ⟨e2, hr2, heq⟩ := ih hn1 (attempt + 1) (retried + 1) polls
          (by omega)
        refine ⟨e2, hr2, ?_⟩
        rw [heq]
        simp [Nat.sub_add_cancel hn1])

/-- Claim C4: connect retry classification and ceiling.  A first-attempt
`connect()` failure with any of `ENOENT`, `ECONNREFUSED` or `EACCES` is
retried — the run is the continuation from the next attempt plus one more
`connect()` call and one more 1-second sleep; as long as every attempt
fails with one of those three errnos, the call fails terminally after
exactly `MAX_RETRY = 5` retries — one initial attempt plus 5 retried
attempts (6 `connect()` calls) with a 1-second sleep before each retry
(5 sleeps), not more attempts; in particular against a path with no
listener (always `ENOENT`) it fails with `ENOENT` after exactly those 6
calls and 5 sleeps; and a first-attempt error other than `ENOENT`,
`ECONNREFUSED`, `EACCES` or `EINPROGRESS` is terminal immediately, with a
single `connect()` call and no sleep. -/
theorem connect_retry_classification (env : Nat → Option Errno) :
    (∀ e, env 0 = some e → connRetryable e →
      connectLoop env 0 0 0 =
        ⟨(connectLoop env 1 1 0).res, (connectLoop env 1 1 0).polls,
          (connectLoop env 1 1 0).calls + 1,
          (connectLoop env 1 1 0).sleeps1s + 1,
          (connectLoop env 1 1 0).sleeps500ms⟩) ∧
    ((∀ n, ∃ e, env n = some e ∧ connRetryable e) →
      ∃ e, connRetryable e ∧
        connectLoop env 0 0 0 =
          ⟨.error e, 0, MAX_RETRY + 1, MAX_RETRY, 0⟩) ∧
    ((∀ n, env n = some .ENOENT) →
      (connectLoop env 0 0 0).res = .error .ENOENT ∧
      (connectLoop env 0 0 0).calls = MAX_RETRY + 1 ∧
      (connectLoop env 0 0 0).sleeps1s = MAX_RETRY) ∧
    (∀ e, env 0 = some e →
      e ≠ .ENOENT → e ≠ .ECONNREFUSED → e ≠ .EACCES → e ≠ .EINPROGRESS →
      connectLoop env 0 0 0 = ⟨.error e, 0, 1, 0, 0⟩) := by
  refine ⟨?_, ?_, ?_, ?_⟩
  · intro e h0 hr
    rw [connectLoop, h0]
    rcases hr with rfl | rfl | rfl
    all_goals simp [MAX_RETRY]
  · intro he
    obtain ⟨e, hr, heq⟩ := connectLoop_retryable env he (MAX_RETRY + 1)
      (by omega) 0 0 0 (by omega)
    exact ⟨e, hr, heq⟩
  · intro he
    rw [connectLoop_enoent env he (MAX_RETRY + 1) (by omega) 0 0 0 (by omega)]
    exact ⟨rfl, rfl, rfl⟩
  · intro e h0 h1 h2 h3 h4
    rw [connectLoop, h0]
    cases e with
    | ENOENT => exact absurd rfl h1
    | ECONNREFUSED => exact absurd rfl h2
    | EACCES => exact absurd rfl h3
    | EINPROGRESS => exact absurd rfl h4
    | EAGAIN => rfl
    | other code => rfl

/-- Closed instance of the claim-C4 theorem: a first-attempt
`ECONNREFUSED` for the retry-step half, a persistently-`EACCES`
environment for the general retryable ceiling, the always-`ENOENT`
environment for the no-listener half, and a first-attempt wildcard errno
(code 13) for the immediately-terminal half. -/
theorem connect_retry_classification_witness :
    connectLoop (fun _ => some .ECONNREFUSED) 0 0 0 =
      ⟨(connectLoop (fun _ => some .ECONNREFUSED) 1 1 0).res,
        (connectLoop (fun _ => some .ECONNREFUSED) 1 1 0).polls,
        (connectLoop (fun _ => some .ECONNREFUSED) 1 1 0).calls + 1,
        (connectLoop (fun _ => some .ECONNREFUSED) 1 1 0).sleeps1s + 1,
        (connectLoop (fun _ => some .ECONNREFUSED) 1 1 0).sleeps500ms⟩ ∧
    (∃ e, connRetryable e ∧
      connectLoop (fun _ => some .EACCES) 0 0 0 =
        ⟨.error e, 0, MAX_RETRY + 1, MAX_RETRY, 0⟩) ∧
    ((connectLoop (fun _ => some .ENOENT) 0 0 0).res = .error .ENOENT ∧
      (connectLoop (fun _ => some .ENOENT) 0 0 0).calls = MAX_RETRY + 1 ∧
      (connectLoop (fun _ => some .ENOENT) 0 0 0).sleeps1s = MAX_RETRY) ∧
    connectLoop (fun _ => some (.other 13)) 0 0 0 =
      ⟨.error (.other 13), 0, 1, 0, 0⟩ :=
  ⟨(connect_retry_classification (fun _ => some .ECONNREFUSED)).1
      .ECONNREFUSED rfl (Or.inr (Or.inl rfl)),
   (connect_retry_classification (fun _ => some .EACCES)).2.1
      (fun _ => ⟨.EACCES, rfl, Or.inr (Or.inr rfl)⟩),
   (connect_retry_classification (fun _ => some .ENOENT)).2.2.1
      (fun _ => rfl),
   (connect_retry_classification (fun _ => some (.other 13))).2.2.2
      (.other 13) rfl (by decide) (by decide) (by decide) (by decide)⟩

/-- Counterexample to claim C3 as stated: after a connect phase that
consumed 19 `EINPROGRESS` polls, the send phase does NOT get a fresh
budget of 20 poll attempts — its very first `EAGAIN` pushes the shared
counter to 20 and the call fails, where the spec-modelled fresh-budget
variant of the same procedure succeeds on the same environment. -/
theorem send_poll_budget_counterexample :
    (send_fds_to none cenvPolls senvPolls).res = .error .EAGAIN ∧
    (send_fds_to none cenvPolls senvPolls).sendmsgCalls = 1 ∧
    (send_fds_to_fresh_budget none cenvPolls senvPolls).res = .ok 7 ∧
    (send_fds_to none cenvPolls senvPolls).res ≠
      (send_fds_to_fresh_budget none cenvPolls senvPolls).res := by
  refine ⟨?_, ?_, ?_, ?_⟩ <;>
    simp [send_fds_to, send_fds_to_fresh_budget, connectLoop, sendLoop,
      cenvPolls, senvPolls, MAX_RETRY, MAX_NONBLOCKING_POLLS]

/-- Claim C3 (amended): the poll budget is shared, not reset, between the
phases.  `send_fds_to` hands the connect phase's final `nonblocking_polls`
value to the sendmsg loop: whenever the connect phase succeeds, a send
phase facing a persistently `EAGAIN` peer performs exactly
`MAX_NONBLOCKING_POLLS - p` sendmsg calls before the terminal error, where
`p` is the poll count the connect phase consumed — not a fresh 20. -/
theorem send_poll_budget_shared (cenv : Nat → Option Errno)
    (senv : Nat → Except Errno Nat)
    (hconn : (connectLoop cenv 0 0 0).res = .ok ())
    (hs : ∀ n, senv n = .error .EAGAIN) :
    (send_fds_to none cenv senv).sendmsgCalls =
      MAX_NONBLOCKING_POLLS - (send_fds_to none cenv senv).connectPolls ∧
    (send_fds_to none cenv senv).res = .error .EAGAIN := by
  have hp : (connectLoop cenv 0 0 0).polls < MAX_NONBLOCKING_POLLS :=
    connectLoop_ok_polls cenv _ 0 0 0 rfl (by simp [MAX_NONBLOCKING_POLLS])
      hconn
  simp only [send_fds_to]
  rw [hconn]
  try simp only []
  rw [sendLoop_eagain senv hs
    (MAX_NONBLOCKING_POLLS - (connectLoop cenv 0 0 0).polls) (by omega)
    0 ((connectLoop cenv 0 0 0).polls) (by omega)]
  exact ⟨rfl, rfl⟩

/-- Closed instance of the amended claim-C3 theorem at the concrete
environment of the counterexample (19 connect polls consumed, always-EAGAIN
send phase). -/
theorem send_poll_budget_shared_witness :
    (send_fds_to none cenvPolls (fun _ => .error .EAGAIN)).sendmsgCalls =
      MAX_NONBLOCKING_POLLS -
        (send_fds_to none cenvPolls (fun _ => .error .EAGAIN)).connectPolls ∧
    (send_fds_to none cenvPolls (fun _ => .error .EAGAIN)).res =
      .error .EAGAIN :=
  send_poll_budget_shared cenvPolls (fun _ => .error .EAGAIN)
    (by simp [connectLoop, cenvPolls, MAX_RETRY, MAX_NONBLOCKING_POLLS])
    (fun _ => rfl)

/-- Counterexample to claim C5 as stated: against a persistently `EAGAIN`
accept environment, `accept_with_retry` sleeps and retries 6 times (7
`accept()` calls), exceeding the claimed 5-attempt ceiling, because the
`retried > MAX_RETRY` check precedes the counter increment. -/
theorem accept_retry_counterexample :
    (accept_with_retry (fun _ => .error .EAGAIN) 0 0).sleeps1s = 6 ∧
    (accept_with_retry (fun _ => .error .EAGAIN) 0 0).calls = 7 ∧
    ¬ (accept_with_retry (fun _ => .error .EAGAIN) 0 0).sleeps1s ≤
      MAX_RETRY := by
  refine ⟨?_, ?_, ?_⟩ <;>
    simp [accept_with_retry, MAX_RETRY]

/-- Claim C5 (amended): accept retry policy.  An `accept()` failure with
`EAGAIN` causes a 1-second sleep and a retry, but since the ceiling check
`retried > MAX_RETRY` precedes the increment, a persistently unready peer
is retried `MAX_RETRY + 1 = 6` times (7 accept calls, 6 sleeps) before the
terminal error; an `accept()` failure with any other error is terminal
immediately. -/
theorem accept_retry_policy (env : Nat → Except Errno Int) :
    ((∀ n, env n = .error .EAGAIN) →
      (accept_with_retry env 0 0).res = .error .EAGAIN ∧
      (accept_with_retry env 0 0).calls = MAX_RETRY + 2 ∧
      (accept_with_retry env 0 0).sleeps1s = MAX_RETRY + 1) ∧
    (∀ e, env 0 = .error e → e ≠ .EAGAIN →
      accept_with_retry env 0 0 = ⟨.error e, 1, 0⟩) := by
  constructor
  · intro he
    rw [acceptLoop_eagain env he (MAX_RETRY + 2) (by omega) 0 0 (by omega)]
    exact ⟨rfl, rfl, rfl⟩
  · intro e h0 hne
    rw [accept_with_retry, h0]
    cases e with
    | EAGAIN => exact absurd rfl hne
    | ENOENT => simp [MAX_RETRY]
    | ECONNREFUSED => simp [MAX_RETRY]
    | EACCES => simp [MAX_RETRY]
    | EINPROGRESS => simp [MAX_RETRY]
    | other code => simp [MAX_RETRY]

/-- Closed instance of the amended claim-C5 theorem: the always-`EAGAIN`
environment for the retry half and a first-attempt `ECONNREFUSED` for the
immediately-terminal half. -/
theorem accept_retry_policy_witness :
    ((accept_with_retry (fun _ => .error .EAGAIN) 0 0).res =
        .error .EAGAIN ∧
      (accept_with_retry (fun _ => .error .EAGAIN) 0 0).calls =
        MAX_RETRY + 2 ∧
      (accept_with_retry (fun _ => .error .EAGAIN) 0 0).sleeps1s =
        MAX_RETRY + 1) ∧
    accept_with_retry (fun _ => .error .ECONNREFUSED) 0 0 =
      ⟨.error .ECONNREFUSED, 1, 0⟩ :=
  ⟨(accept_retry_policy (fun _ => .error .EAGAIN)).1 (fun _ => rfl),
   (accept_retry_policy (fun _ => .error .ECONNREFUSED)).2 .ECONNREFUSED
     rfl (by decide)⟩

/-- Counterexample to claim C6 as stated: when `accept` succeeds but
`recvmsg` fails, the `unwrap` panics and `get_fds_from` aborts BEFORE the
cleanup block — the listening descriptor is not closed and the well-known
path still exists, although this is a failure after a successful accept. -/
theorem receiver_cleanup_counterexample :
    (get_fds_from ⟨fun _ => .ok 9, .error (.other 111)⟩).1 =
      Outcome.fatal ∧
    (get_fds_from ⟨fun _ => .ok 9, .error (.other 111)⟩).2.pathExists =
      true ∧
    (get_fds_from ⟨fun _ => .ok 9, .error (.other 111)⟩).2.listenClosed =
      false := by
  refine ⟨?_, ?_, ?_⟩ <;>
    simp [get_fds_from, accept_with_retry, closeListen, unlinkPath]

/-- Claim C6 (amended): receiver cleanup on every normal return.  Whenever
`get_fds_from` returns (successful receive, or terminal failure of the
accept retry loop), the listening descriptor has been closed and the
well-known bind path unlinked before the return; the one exception forced
by the counterexample is a `recvmsg` failure, whose `unwrap` panic aborts
without cleanup. -/
theorem receiver_cleanup (env : RecvEnv)
    (h : (get_fds_from env).1 ≠ Outcome.fatal) :
    (get_fds_from env).2.listenClosed = true ∧
    (get_fds_from env).2.pathExists = false := by
  obtain ⟨acc, recv⟩ := env
  simp only [get_fds_from] at h ⊢
  cases hacc : (accept_with_retry acc 0 0).res with
  | error e => exact ⟨rfl, rfl⟩
  | ok fd =>
    rw [hacc] at h
    cases hrecv : recv with
    | error e2 =>
      rw [hrecv] at h
      exact absurd rfl h
    | ok p =>
      obtain ⟨fds, bytes⟩ := p
      exact ⟨rfl, rfl⟩

/-- Closed instance of the amended claim-C6 theorem, once on the successful
path and once on the accept-failure path. -/
theorem receiver_cleanup_witness :
    ((get_fds_from ⟨fun _ => .ok 9, .ok ([4], 2)⟩).2.listenClosed = true ∧
      (get_fds_from ⟨fun _ => .ok 9, .ok ([4], 2)⟩).2.pathExists = false) ∧
    ((get_fds_from ⟨fun _ => .error (.other 22), .ok ([4], 2)⟩).2.listenClosed
        = true ∧
      (get_fds_from ⟨fun _ => .error (.other 22), .ok ([4], 2)⟩).2.pathExists
        = false) :=
  ⟨receiver_cleanup ⟨fun _ => .ok 9, .ok ([4], 2)⟩
      (by simp [get_fds_from, accept_with_retry]),
   receiver_cleanup ⟨fun _ => .error (.other 22), .ok ([4], 2)⟩
      (by simp [get_fds_from, accept_with_retry, MAX_RETRY])⟩

/-- Counterexample to claim C7 as stated: when `UnixAddr::new(path)` fails
(here with errno 36, `ENAMETOOLONG` for an over-long socket path), the `?`
at socket.rs line 98 returns the error AFTER `send_fd` was created at
lines 92-97 but BEFORE the only `close(send_fd)` at line 186 — a
terminal-error return path on which the sending descriptor is not
closed. -/
theorem sender_closes_socket_counterexample :
    (send_fds_to (some (.other 36)) (fun _ => none)
        (fun _ => .ok 0)).res = .error (.other 36) ∧
    (send_fds_to (some (.other 36)) (fun _ => none)
        (fun _ => .ok 0)).sendFdClosed = false :=
  ⟨rfl, rfl⟩

/-- Claim C7 (amended): `send_fds_to` closes its sending socket on every
return path that passes the socket-address construction.  When
`UnixAddr::new(path)` succeeds, every path — connect-phase terminal
failure, sendmsg-phase terminal failure, and success — flows into the
final `close(send_fd).unwrap()` before the result is returned; the one
path forced by the counterexample is the fallible `UnixAddr::new(path)?`
at line 98, which returns its error without closing the descriptor. -/
theorem sender_closes_socket (cenv : Nat → Option Errno)
    (senv : Nat → Except Errno Nat) :
    (send_fds_to none cenv senv).sendFdClosed = true ∧
    ∀ e, (send_fds_to (some e) cenv senv).sendFdClosed = false ∧
      (send_fds_to (some e) cenv senv).res = .error e := by
  constructor
  · simp only [send_fds_to]
    cases (connectLoop cenv 0 0 0).res with
    | ok u => rfl
    | error e => rfl
  · intro e
    exact ⟨rfl, rfl⟩


end Mock
